import Mathlib

/-!
Shallow embedding of the 2D raster/document composition engine of the
AgenticCommerce marketplace asset generator
(src/marketplace/generate_assets.py and src/marketplace/generate_pdfs.py),
together with theorems checking the natural-language specification
against that code.

Python floating point arithmetic on the small normalized coordinates is
idealized as exact rational arithmetic over Rat, and Python machine
integers as Int.
-/

/-- RGB color: a triple of integer channels, as the Python color tuples
such as INDIGO_500 = (99, 102, 241). -/
structure Color where
  r : ℤ
  g : ℤ
  b : ℤ
deriving DecidableEq, Repr

/-- Nonnegativity of all three channels; every actual 8-bit color satisfies
this. -/
def Color.Nonneg (c : Color) : Prop := 0 ≤ c.r ∧ 0 ≤ c.g ∧ 0 ≤ c.b

instance (c : Color) : Decidable c.Nonneg := by
  unfold Color.Nonneg
  infer_instance

/-- Python int() applied to an exact rational: truncation toward zero. -/
def pyInt (q : ℚ) : ℤ := if 0 ≤ q then ⌊q⌋ else ⌈q⌉

/-- One channel of the inline interpolation in gradient_fill
(generate_assets.py lines 55-57): int(color1[c] + (color2[c] - color1[c]) * t). -/
def interpChannel (c1 c2 : ℤ) (t : ℚ) : ℤ :=
  pyInt ((c1 : ℚ) + ((c2 : ℚ) - (c1 : ℚ)) * t)

/-- The full interpolated color written by gradient_fill at parameter t. -/
def interpColor (c1 c2 : Color) (t : ℚ) : Color :=
  ⟨interpChannel c1.r c2.r t, interpChannel c1.g c2.g t, interpChannel c1.b c2.b t⟩

/-- Gradient direction, the direction argument of gradient_fill. -/
inductive Direction
  | diagonal
  | horizontal
  | vertical
deriving DecidableEq, Repr

/-- The per-pixel parameter t computed by gradient_fill
(generate_assets.py lines 49-54) for row offset i and column offset j:
diagonal gives (i / h + j / w) / 2, horizontal gives j / w,
vertical gives i / h. -/
def tParam (dir : Direction) (i j : ℕ) (w h : ℤ) : ℚ :=
  match dir with
  | .diagonal => ((i : ℚ) / (h : ℚ) + (j : ℚ) / (w : ℚ)) / 2
  | .horizontal => (j : ℚ) / (w : ℚ)
  | .vertical => (i : ℚ) / (h : ℚ)

/-- The writes performed by one iteration row of the inner loop
for j in range(w): draw.point((x1 + j, y1 + i), ...), in execution order.
rowWrites x1 y f w lists the writes of the first w inner iterations. -/
def rowWrites (x1 y : ℤ) (f : ℕ → Color) : ℕ → List ((ℤ × ℤ) × Color)
  | 0 => []
  | n + 1 => rowWrites x1 y f n ++ [((x1 + (n : ℤ), y), f n)]

/-- The writes performed by the nested loops for i in range(h): for j in
range(w), in execution order: gridWrites x1 y1 w f h lists the writes of
the first h outer iterations, each contributing one row of w writes. -/
def gridWrites (x1 y1 : ℤ) (wN : ℕ) (f : ℕ → ℕ → Color) : ℕ → List ((ℤ × ℤ) × Color)
  | 0 => []
  | m + 1 => gridWrites x1 y1 wN f m ++ rowWrites x1 (y1 + (m : ℤ)) (f m) wN

/-- gradient_fill (generate_assets.py lines 42-58) as the ordered list of
pixel writes it performs on the draw target: w = x2 - x1, h = y2 - y1,
and for each i in range(h), j in range(w) it writes the interpolated color
at pixel (x1 + j, y1 + i). Python range of a nonpositive integer is empty,
hence the Int.toNat. -/
def gradient_fill (rect : ℤ × ℤ × ℤ × ℤ) (c1 c2 : Color) (dir : Direction) :
    List ((ℤ × ℤ) × Color) :=
  let x1 := rect.1
  let y1 := rect.2.1
  let x2 := rect.2.2.1
  let y2 := rect.2.2.2
  let w := x2 - x1
  let h := y2 - y1
  gridWrites x1 y1 w.toNat (fun i j => interpColor c1 c2 (tParam dir i j w h)) h.toNat

/-- A canvas assigns a color to every integer pixel coordinate; PIL draw
calls mutate it in place, modeled by explicit state passing. -/
def Canvas := (ℤ × ℤ) → Color

/-- Applying a list of pixel writes to a canvas, in order: later writes at
the same coordinate win, as with in-place mutation. -/
def applyWrites (c : Canvas) (ws : List ((ℤ × ℤ) × Color)) : Canvas :=
  ws.foldl (fun c w => Function.update c w.1 w.2) c

/-- The spec side of claim C5, written from the specification text: with
normalized position nx = j/width and ny = i/height, the parameter is nx
for horizontal, ny for vertical and (nx + ny)/2 for diagonal. -/
def specT (dir : Direction) (i j : ℕ) (width height : ℕ) : ℚ :=
  let nx : ℚ := (j : ℚ) / (width : ℚ)
  let ny : ℚ := (i : ℚ) / (height : ℚ)
  match dir with
  | .diagonal => (nx + ny) / 2
  | .horizontal => nx
  | .vertical => ny

/-- The spec side of claim C5: each channel equals
floor(color1.c + (color2.c - color1.c) * t). -/
def specChannel (c1 c2 : ℤ) (t : ℚ) : ℤ := ⌊(c1 : ℚ) + ((c2 : ℚ) - (c1 : ℚ)) * t⌋

/-- The spec side of claim C5, all three channels. -/
def specColor (c1 c2 : Color) (t : ℚ) : Color :=
  ⟨specChannel c1.r c2.r t, specChannel c1.g c2.g t, specChannel c1.b c2.b t⟩

/-- Token-run rendering, the inner loop of screenshot_2_sdk
(generate_assets.py lines 406-413) and screenshot_5_flow (lines 844-851):
each run of one logical line is drawn at the cursor x with its own color,
then x advances by the width measured from the font metrics of the text
alone (draw.textbbox width, modeled by the abstract measure function).
Returns the placed runs with their x positions, and the final cursor x. -/
def drawRuns (measure : String → ℤ) (x : ℤ) :
    List (String × Color) → List (ℤ × String × Color) × ℤ
  | [] => ([], x)
  | r :: rs =>
    let rest := drawRuns measure (x + measure r.1) rs
    ((x, r.1, r.2) :: rest.1, rest.2)

/-- Candidate font files probed by get_font (generate_assets.py lines
77-87) when bold is false. -/
def font_names_regular : List String :=
  ["C:/Windows/Fonts/segoeui.ttf", "C:/Windows/Fonts/segoeuib.ttf",
   "C:/Windows/Fonts/arial.ttf", "C:/Windows/Fonts/arialbd.ttf"]

/-- Candidate font files probed by get_font: the bold variants are put in
front when bold is true. -/
def font_names (bold : Bool) : List String :=
  if bold then
    ["C:/Windows/Fonts/segoeuib.ttf", "C:/Windows/Fonts/arialbd.ttf"]
      ++ font_names_regular
  else font_names_regular

/-- Result of a font lookup: a loaded truetype file, or the PIL built-in
default font from ImageFont.load_default(). -/
inductive FontResult
  | truetype (name : String)
  | builtin
deriving DecidableEq, Repr

/-- The probe loop of get_font: each candidate is tried in order
(ImageFont.truetype inside try/except); avail says which files load. The
first component records every probe actually performed, in order; the
second is the result, falling back to the built-in default when all
candidates fail. -/
def probeFonts (avail : String → Bool) : List String → List String × FontResult
  | [] => ([], .builtin)
  | n :: rest =>
    if avail n then ([n], .truetype n)
    else
      let r := probeFonts avail rest
      (n :: r.1, r.2)

/-- get_font (generate_assets.py lines 75-93) for a given availability of
font files: probe the ordered candidate list, return the first success or
the built-in default. The size argument only parameterizes the loaded
font object and is irrelevant to the probing order, so it is omitted. -/
def get_font (avail : String → Bool) (bold : Bool) : List String × FontResult :=
  probeFonts avail (font_names bold)

/-- A run of several get_font requests, as performed by the screenshot
generators: the source keeps no cache of any kind, so each call runs the
probe loop afresh on the same module-level candidate list. -/
def fontRun (avail : String → Bool) (reqs : List Bool) :
    List (List String × FontResult) :=
  reqs.map (fun b => get_font avail b)

/-- Whether BrandedPDF.header (generate_pdfs.py lines 31-41) draws the
header band on the given page: it returns early when page_no() == 1 (the
cover page) and draws the brand mark, document title and rule otherwise. -/
def headerDraws (pageNo : ℕ) : Bool := pageNo != 1

/-- Whether BrandedPDF.footer (generate_pdfs.py lines 43-47) draws the
footer band on the given page: it draws the page-number line
unconditionally, on every page. -/
def footerDraws (_pageNo : ℕ) : Bool := true

/-- Bands actually drawn on one finished page. -/
structure PageRecord where
  pageNo : ℕ
  headerBand : Bool
  footerBand : Bool
deriving DecidableEq, Repr

/-- State of a BrandedPDF document under construction: the number of the
currently open page (0 when none yet), the finished pages in order, and
the open page if any. -/
structure DocState where
  pageNo : ℕ
  closed : List PageRecord
  current : Option PageRecord
deriving DecidableEq, Repr

/-- The empty document, before any add_page call. -/
def initDoc : DocState := ⟨0, [], none⟩

/-- The fpdf page lifecycle for add_page, with the BrandedPDF overrides
plugged in: any open page is finished first, invoking the footer hook on
exit, then a new page is opened and the header hook is invoked on entry.
Automatic page breaks from set_auto_page_break go through this same path. -/
def addPage (s : DocState) : DocState :=
  let closed :=
    match s.current with
    | some p => s.closed ++ [{ p with footerBand := footerDraws p.pageNo }]
    | none => s.closed
  let n := s.pageNo + 1
  { pageNo := n
    closed := closed
    current := some ⟨n, headerDraws n, false⟩ }

/-- The fpdf page lifecycle for output: the last open page is finished,
invoking the footer hook on exit, and the finished page list is emitted. -/
def outputDoc (s : DocState) : List PageRecord :=
  match s.current with
  | some p => s.closed ++ [{ p with footerBand := footerDraws p.pageNo }]
  | none => s.closed

/-- A document built by n add_page calls (the first one issued by
cover_page, the rest explicitly or by automatic page breaks). -/
def runAddPages : ℕ → DocState
  | 0 => initDoc
  | n + 1 => addPage (runAddPages n)

/-- The pages of a finished BrandedPDF document with n pages, with the
bands drawn on each. -/
def docPages (n : ℕ) : List PageRecord := outputDoc (runAddPages n)

/-- Style argument of an fpdf rect call: D draws the border only, F fills
only, DF does both. -/
inductive RectStyle
  | D
  | F
  | DF
deriving DecidableEq, Repr

/-- One fpdf rect call as recorded in the drawing trace. -/
structure RectOp where
  x : ℚ
  y : ℚ
  w : ℚ
  h : ℚ
  style : RectStyle
deriving DecidableEq, Repr

/-- The slice of fpdf state that info_box touches: the cursor y position
and the trace of rect calls issued so far. -/
structure PdfState where
  y : ℚ
  rects : List RectOp
deriving Repr

/-- fpdf ln: move the cursor down by h. -/
def pdfLn (h : ℚ) (s : PdfState) : PdfState := { s with y := s.y + h }

/-- fpdf rect: record the drawing call. -/
def pdfRect (x y w h : ℚ) (st : RectStyle) (s : PdfState) : PdfState :=
  { s with rects := s.rects ++ [⟨x, y, w, h, st⟩] }

/-- fpdf set_xy / set_y: place the cursor (the x component is not modeled,
info_box only measures y). -/
def pdfSetY (y : ℚ) (s : PdfState) : PdfState := { s with y := y }

/-- fpdf cell with new_y NEXT: advance the cursor by the cell height. -/
def pdfCellNext (h : ℚ) (s : PdfState) : PdfState := { s with y := s.y + h }

/-- fpdf multi_cell: the content wraps into some number of lines of the
given height; the wrapped line count depends on glyph widths and is
abstracted as nLines. -/
def pdfMultiCell (lineH : ℚ) (nLines : ℕ) (s : PdfState) : PdfState :=
  { s with y := s.y + lineH * (nLines : ℚ) }

/-- info_box (generate_pdfs.py lines 122-142), with the wrapped line count
of the content abstracted as nLines: ln(2); record start y; draw the
estimate box rect(10, y_start, 190, 30, DF); set_xy(14, y_start + 3);
title cell of height 6; multi_cell of line height 5; measure
box_h = get_y() - y_start + 4; redraw rect(10, y_start, 190, box_h, D);
ln(4). -/
def info_box (nLines : ℕ) (s0 : PdfState) : PdfState :=
  let s1 := pdfLn 2 s0
  let y_start := s1.y
  let s2 := pdfRect 10 y_start 190 30 .DF s1
  let s3 := pdfSetY (y_start + 3) s2
  let s4 := pdfCellNext 6 s3
  let s5 := pdfMultiCell 5 nLines s4
  let box_h := s5.y - y_start + 4
  let s6 := pdfRect 10 y_start 190 box_h .D s5
  pdfLn 4 s6

theorem applyWrites_nil (c : Canvas) : applyWrites c [] = c := rfl

theorem applyWrites_append (c : Canvas) (ws1 ws2 : List ((ℤ × ℤ) × Color)) :
    applyWrites c (ws1 ++ ws2) = applyWrites (applyWrites c ws1) ws2 :=
  List.foldl_append _ _ _ _

theorem applyWrites_notMem (c : Canvas) (ws : List ((ℤ × ℤ) × Color)) (p : ℤ × ℤ)
    (h : ∀ q ∈ ws, q.1 ≠ p) : applyWrites c ws p = c p := by
  induction ws generalizing c with
  | nil => rfl
  | cons w ws ih =>
    have hw : w.1 ≠ p := h w (List.mem_cons_self _ _)
    have hrest : ∀ q ∈ ws, q.1 ≠ p := fun q hq => h q (List.mem_cons_of_mem _ hq)
    simp only [applyWrites, List.foldl_cons] at *
    rw [ih _ hrest, Function.update_noteq (Ne.symm hw)]

theorem mem_rowWrites {x1 y : ℤ} {f : ℕ → Color} {wN : ℕ} {q : (ℤ × ℤ) × Color}
    (h : q ∈ rowWrites x1 y f wN) : ∃ j < wN, q = ((x1 + (j : ℤ), y), f j) := by
  induction wN with
  | zero => simp [rowWrites] at h
  | succ n ih =>
    simp only [rowWrites, List.mem_append, List.mem_singleton] at h
    rcases h with h | h
    · obtain ⟨j, hj, hq⟩ := ih h
      exact ⟨j, Nat.lt_succ_of_lt hj, hq⟩
    · exact ⟨n, Nat.lt_succ_self n, h⟩

theorem mem_gridWrites {x1 y1 : ℤ} {wN hN : ℕ} {f : ℕ → ℕ → Color}
    {q : (ℤ × ℤ) × Color} (h : q ∈ gridWrites x1 y1 wN f hN) :
    ∃ i < hN, ∃ j < wN, q = ((x1 + (j : ℤ), y1 + (i : ℤ)), f i j) := by
  induction hN with
  | zero => simp [gridWrites] at h
  | succ m ih =>
    simp only [gridWrites, List.mem_append] at h
    rcases h with h | h
    · obtain ⟨i, hi, j, hj, hq⟩ := ih h
      exact ⟨i, Nat.lt_succ_of_lt hi, j, hj, hq⟩
    · obtain ⟨j, hj, hq⟩ := mem_rowWrites h
      exact ⟨m, Nat.lt_succ_self m, j, hj, hq⟩

theorem applyWrites_rowWrites_ne (c : Canvas) (x1 y : ℤ) (f : ℕ → Color) (wN : ℕ)
    (p : ℤ × ℤ) (h : p.2 ≠ y) :
    applyWrites c (rowWrites x1 y f wN) p = c p := by
  refine applyWrites_notMem c _ p (fun q hq => ?_)
  obtain ⟨j, _, rfl⟩ := mem_rowWrites hq
  intro hc
  exact h (by rw [← hc])

theorem applyWrites_rowWrites_at (c : Canvas) (x1 y : ℤ) (f : ℕ → Color) (wN j : ℕ)
    (hj : j < wN) :
    applyWrites c (rowWrites x1 y f wN) (x1 + (j : ℤ), y) = f j := by
  induction wN generalizing c with
  | zero => omega
  | succ n ih =>
    rw [rowWrites, applyWrites_append]
    rcases Nat.lt_succ_iff_lt_or_eq.mp hj with hlt | rfl
    · have hne : ((x1 + (j : ℤ), y) : ℤ × ℤ) ≠ (x1 + (n : ℤ), y) := by
        intro hx
        injection hx with h1 h2
        omega
      show Function.update _ _ _ _ = _
      rw [Function.update_noteq hne]
      exact ih c hlt
    · show Function.update _ _ _ _ = _
      rw [Function.update_same]

theorem applyWrites_gridWrites_at (c : Canvas) (x1 y1 : ℤ) (wN hN : ℕ)
    (f : ℕ → ℕ → Color) (i j : ℕ) (hi : i < hN) (hj : j < wN) :
    applyWrites c (gridWrites x1 y1 wN f hN) (x1 + (j : ℤ), y1 + (i : ℤ)) = f i j := by
  induction hN generalizing c with
  | zero => omega
  | succ m ih =>
    rw [gridWrites, applyWrites_append]
    rcases Nat.lt_succ_iff_lt_or_eq.mp hi with hlt | rfl
    · rw [applyWrites_rowWrites_ne _ _ _ _ _ _
        (by show (y1 + (i : ℤ)) ≠ y1 + (m : ℤ); omega)]
      exact ih c hlt
    · exact applyWrites_rowWrites_at _ _ _ _ _ _ hj

theorem gridWrites_width_zero (x1 y1 : ℤ) (f : ℕ → ℕ → Color) :
    ∀ m, gridWrites x1 y1 0 f m = [] := by
  intro m
  induction m with
  | zero => rfl
  | succ k ih => simp [gridWrites, rowWrites, ih]

theorem pyInt_intCast (n : ℤ) : pyInt (n : ℚ) = n := by
  unfold pyInt
  split
  · exact Int.floor_intCast n
  · exact Int.ceil_intCast n

theorem pyInt_eq_floor (q : ℚ) (h : 0 ≤ q) : pyInt q = ⌊q⌋ := by
  unfold pyInt
  simp [h]

theorem interp_arg_nonneg (a b : ℤ) (t : ℚ) (ha : 0 ≤ a) (hb : 0 ≤ b)
    (h0 : 0 ≤ t) (h1 : t ≤ 1) : 0 ≤ (a : ℚ) + ((b : ℚ) - (a : ℚ)) * t := by
  have ha2 : (0 : ℚ) ≤ (a : ℚ) := by exact_mod_cast ha
  have hb2 : (0 : ℚ) ≤ (b : ℚ) := by exact_mod_cast hb
  nlinarith [mul_nonneg ha2 (sub_nonneg.mpr h1), mul_nonneg hb2 h0]

theorem tParam_nonneg (dir : Direction) (i j : ℕ) (w h : ℤ)
    (hw : 0 < w) (hh : 0 < h) : 0 ≤ tParam dir i j w h := by
  have hwq : (0 : ℚ) < (w : ℚ) := by exact_mod_cast hw
  have hhq : (0 : ℚ) < (h : ℚ) := by exact_mod_cast hh
  have hiq : (0 : ℚ) ≤ (i : ℚ) := Nat.cast_nonneg i
  have hjq : (0 : ℚ) ≤ (j : ℚ) := Nat.cast_nonneg j
  cases dir <;> simp only [tParam] <;> positivity

theorem tParam_lt_one (dir : Direction) (i j : ℕ) (w h : ℤ)
    (hi : (i : ℤ) < h) (hj : (j : ℤ) < w) : tParam dir i j w h < 1 := by
  have hw : (0 : ℤ) < w := lt_of_le_of_lt (Int.natCast_nonneg j) hj
  have hh : (0 : ℤ) < h := lt_of_le_of_lt (Int.natCast_nonneg i) hi
  have hwq : (0 : ℚ) < (w : ℚ) := by exact_mod_cast hw
  have hhq : (0 : ℚ) < (h : ℚ) := by exact_mod_cast hh
  have hjw : (j : ℚ) / (w : ℚ) < 1 := by
    rw [div_lt_one hwq]
    exact_mod_cast hj
  have hih : (i : ℚ) / (h : ℚ) < 1 := by
    rw [div_lt_one hhq]
    exact_mod_cast hi
  have hjw0 : (0 : ℚ) ≤ (j : ℚ) / (w : ℚ) := by positivity
  have hih0 : (0 : ℚ) ≤ (i : ℚ) / (h : ℚ) := by positivity
  cases dir <;> simp only [tParam] <;> linarith

theorem gradient_fill_eq_grid (x1 y1 x2 y2 : ℤ) (c1 c2 : Color) (dir : Direction) :
    gradient_fill (x1, y1, x2, y2) c1 c2 dir
      = gridWrites x1 y1 (x2 - x1).toNat
          (fun i j => interpColor c1 c2 (tParam dir i j (x2 - x1) (y2 - y1)))
          (y2 - y1).toNat := rfl

theorem gradient_value (x1 y1 : ℤ) (wN hN : ℕ) (c1 c2 : Color) (dir : Direction)
    (canvas : Canvas) (i j : ℕ) (hi : i < hN) (hj : j < wN) :
    applyWrites canvas
        (gradient_fill (x1, y1, x1 + (wN : ℤ), y1 + (hN : ℤ)) c1 c2 dir)
        (x1 + (j : ℤ), y1 + (i : ℤ))
      = interpColor c1 c2 (tParam dir i j (wN : ℤ) (hN : ℤ)) := by
  rw [gradient_fill_eq_grid]
  have hw : x1 + (wN : ℤ) - x1 = (wN : ℤ) := by omega
  have hh : y1 + (hN : ℤ) - y1 = (hN : ℤ) := by omega
  rw [hw, hh, Int.toNat_natCast, Int.toNat_natCast]
  exact applyWrites_gridWrites_at canvas x1 y1 wN hN _ i j hi hj

theorem interpColor_eq_spec (c1 c2 : Color) (t : ℚ) (h1 : c1.Nonneg)
    (h2 : c2.Nonneg) (h0 : 0 ≤ t) (hle : t ≤ 1) :
    interpColor c1 c2 t = specColor c1 c2 t := by
  obtain ⟨hr1, hg1, hb1⟩ := h1
  obtain ⟨hr2, hg2, hb2⟩ := h2
  unfold interpColor specColor interpChannel specChannel
  rw [pyInt_eq_floor _ (interp_arg_nonneg _ _ _ hr1 hr2 h0 hle),
    pyInt_eq_floor _ (interp_arg_nonneg _ _ _ hg1 hg2 h0 hle),
    pyInt_eq_floor _ (interp_arg_nonneg _ _ _ hb1 hb2 h0 hle)]

theorem tParam_eq_specT (dir : Direction) (i j wN hN : ℕ) :
    tParam dir i j (wN : ℤ) (hN : ℤ) = specT dir i j wN hN := by
  cases dir
  case diagonal =>
    simp only [tParam, specT]
    push_cast
    ring
  case horizontal => simp [tParam, specT]
  case vertical => simp [tParam, specT]

/-- C5: for every non-empty rect (given as x1, y1, x1 + width, y1 + height),
fill_gradient writes at each pixel offset (i, j) inside the rect the color
whose channel c equals floor(color1.c + (color2.c - color1.c) * t), where
with nx = j/width and ny = i/height the parameter t is nx for horizontal,
ny for vertical and (nx + ny)/2 for diagonal. -/
theorem gradient_pixel_formula (x1 y1 : ℤ) (wN hN : ℕ) (c1 c2 : Color)
    (dir : Direction) (canvas : Canvas) (i j : ℕ) (hi : i < hN) (hj : j < wN)
    (h1 : c1.Nonneg) (h2 : c2.Nonneg) :
    applyWrites canvas
        (gradient_fill (x1, y1, x1 + (wN : ℤ), y1 + (hN : ℤ)) c1 c2 dir)
        (x1 + (j : ℤ), y1 + (i : ℤ))
      = specColor c1 c2 (specT dir i j wN hN) := by
  rw [gradient_value x1 y1 wN hN c1 c2 dir canvas i j hi hj]
  have hw : (0 : ℤ) < (wN : ℤ) := by exact_mod_cast Nat.pos_of_ne_zero (by omega)
  have hh : (0 : ℤ) < (hN : ℤ) := by exact_mod_cast Nat.pos_of_ne_zero (by omega)
  have h0 : 0 ≤ tParam dir i j (wN : ℤ) (hN : ℤ) := tParam_nonneg dir i j _ _ hw hh
  have hlt : tParam dir i j (wN : ℤ) (hN : ℤ) < 1 :=
    tParam_lt_one dir i j _ _ (by exact_mod_cast hi) (by exact_mod_cast hj)
  rw [interpColor_eq_spec c1 c2 _ h1 h2 h0 (le_of_lt hlt), tParam_eq_specT]

/-- Witness for gradient_pixel_formula at a concrete input: a 2-by-1
horizontal gradient from (0,0,0) to (2,2,2) puts floor(2 * (1/2)) = 1 in
each channel of the second pixel. -/
theorem gradient_pixel_formula_witness :
    (0 < 1 ∧ 1 < 2 ∧ Color.Nonneg ⟨0, 0, 0⟩ ∧ Color.Nonneg ⟨2, 2, 2⟩)
    ∧ applyWrites (fun _ => ⟨0, 0, 0⟩)
        (gradient_fill (0, 0, 0 + ((2 : ℕ) : ℤ), 0 + ((1 : ℕ) : ℤ))
          ⟨0, 0, 0⟩ ⟨2, 2, 2⟩ .horizontal)
        (0 + ((1 : ℕ) : ℤ), 0 + ((0 : ℕ) : ℤ))
      = specColor ⟨0, 0, 0⟩ ⟨2, 2, 2⟩ (specT .horizontal 0 1 2 1) :=
  ⟨⟨by decide, by decide, by decide, by decide⟩,
    gradient_pixel_formula 0 0 2 1 ⟨0, 0, 0⟩ ⟨2, 2, 2⟩ .horizontal
      (fun _ => ⟨0, 0, 0⟩) 0 1 (by decide) (by decide) (by decide) (by decide)⟩

/-- C7: for every rect whose width or height is zero or negative,
fill_gradient performs no write at all and leaves the canvas unchanged
(and, performing no iteration, divides by neither w nor h). -/
theorem gradient_empty_noop (x1 y1 x2 y2 : ℤ) (c1 c2 : Color) (dir : Direction)
    (canvas : Canvas) (h : x2 - x1 ≤ 0 ∨ y2 - y1 ≤ 0) :
    gradient_fill (x1, y1, x2, y2) c1 c2 dir = []
    ∧ applyWrites canvas (gradient_fill (x1, y1, x2, y2) c1 c2 dir) = canvas := by
  have he : gradient_fill (x1, y1, x2, y2) c1 c2 dir = [] := by
    rw [gradient_fill_eq_grid]
    rcases h with h | h
    · rw [show (x2 - x1).toNat = 0 from Int.toNat_eq_zero.mpr h]
      exact gridWrites_width_zero _ _ _ _
    · rw [show (y2 - y1).toNat = 0 from Int.toNat_eq_zero.mpr h]
      rfl
  exact ⟨he, by rw [he]; rfl⟩

/-- Witness for gradient_empty_noop: a rect of width 0 writes nothing. -/
theorem gradient_empty_noop_witness :
    ((0 : ℤ) - 0 ≤ 0 ∨ (5 : ℤ) - 0 ≤ 0)
    ∧ gradient_fill (0, 0, 0, 5) ⟨1, 2, 3⟩ ⟨4, 5, 6⟩ .diagonal = []
    ∧ applyWrites (fun _ => ⟨9, 9, 9⟩)
        (gradient_fill (0, 0, 0, 5) ⟨1, 2, 3⟩ ⟨4, 5, 6⟩ .diagonal)
      = (fun _ => ⟨9, 9, 9⟩) :=
  ⟨Or.inl (by decide),
    gradient_empty_noop 0 0 0 5 ⟨1, 2, 3⟩ ⟨4, 5, 6⟩ .diagonal
      (fun _ => ⟨9, 9, 9⟩) (Or.inl (by decide))⟩

/-- C10: for every rect with x1 <= x2 and y1 <= y2, fill_gradient writes
only to pixels (x1 + j, y1 + i) with 0 <= j < x2 - x1 and 0 <= i < y2 - y1,
and every pixel outside the half-open rectangle keeps its prior value. -/
theorem gradient_frame_effect (x1 y1 x2 y2 : ℤ) (c1 c2 : Color) (dir : Direction)
    (canvas : Canvas) (p : ℤ × ℤ) (_hx : x1 ≤ x2) (_hy : y1 ≤ y2)
    (hout : ¬(x1 ≤ p.1 ∧ p.1 < x2 ∧ y1 ≤ p.2 ∧ p.2 < y2)) :
    (∀ q ∈ gradient_fill (x1, y1, x2, y2) c1 c2 dir,
        ∃ i j : ℕ, (j : ℤ) < x2 - x1 ∧ (i : ℤ) < y2 - y1
          ∧ q.1 = (x1 + (j : ℤ), y1 + (i : ℤ)))
    ∧ applyWrites canvas (gradient_fill (x1, y1, x2, y2) c1 c2 dir) p = canvas p := by
  constructor
  · intro q hq
    rw [gradient_fill_eq_grid] at hq
    obtain ⟨i, hi, j, hj, rfl⟩ := mem_gridWrites hq
    exact ⟨i, j, Int.lt_toNat.mp hj, Int.lt_toNat.mp hi, rfl⟩
  · refine applyWrites_notMem canvas _ p (fun q hq => ?_)
    rw [gradient_fill_eq_grid] at hq
    obtain ⟨i, hi, j, hj, rfl⟩ := mem_gridWrites hq
    have hi2 : (i : ℤ) < y2 - y1 := Int.lt_toNat.mp hi
    have hj2 : (j : ℤ) < x2 - x1 := Int.lt_toNat.mp hj
    intro hc
    apply hout
    rw [← hc]
    refine ⟨?_, ?_, ?_, ?_⟩
    · show x1 ≤ x1 + (j : ℤ)
      omega
    · show x1 + (j : ℤ) < x2
      omega
    · show y1 ≤ y1 + (i : ℤ)
      omega
    · show y1 + (i : ℤ) < y2
      omega

/-- Witness for gradient_frame_effect: the pixel just right of a 2-by-1
rect keeps its prior color. -/
theorem gradient_frame_effect_witness :
    ((0 : ℤ) ≤ 2 ∧ (0 : ℤ) ≤ 1
      ∧ ¬((0 : ℤ) ≤ (2 : ℤ) ∧ (2 : ℤ) < 2 ∧ (0 : ℤ) ≤ (0 : ℤ) ∧ (0 : ℤ) < 1))
    ∧ applyWrites (fun _ => ⟨9, 9, 9⟩)
        (gradient_fill (0, 0, 2, 1) ⟨0, 0, 0⟩ ⟨2, 2, 2⟩ .horizontal)
        ((2 : ℤ), (0 : ℤ))
      = (fun _ => (⟨9, 9, 9⟩ : Color)) ((2 : ℤ), (0 : ℤ)) :=
  ⟨⟨by decide, by decide, by decide⟩,
    (gradient_frame_effect 0 0 2 1 ⟨0, 0, 0⟩ ⟨2, 2, 2⟩ .horizontal
      (fun _ => ⟨9, 9, 9⟩) (2, 0) (by decide) (by decide) (by decide)).2⟩

theorem tParam_zero_zero (dir : Direction) (w h : ℤ) : tParam dir 0 0 w h = 0 := by
  cases dir <;> simp [tParam]

theorem interpColor_zero (c1 c2 : Color) : interpColor c1 c2 0 = c1 := by
  simp [interpColor, interpChannel, mul_zero, add_zero, pyInt_intCast]

theorem abs_floor_sub_le_one (x : ℚ) : |((⌊x⌋ : ℚ)) - x| ≤ 1 := by
  have h1 := Int.floor_le x
  have h2 := Int.lt_floor_add_one x
  rw [abs_le]
  constructor <;> linarith

theorem interpChannel_half (a b : ℤ) (ha : 0 ≤ a) (hb : 0 ≤ b) :
    |((interpChannel a b (1 / 2) : ℤ) : ℚ) - ((a : ℚ) + (b : ℚ)) / 2| ≤ 1 := by
  have harg : (a : ℚ) + ((b : ℚ) - (a : ℚ)) * (1 / 2) = ((a : ℚ) + (b : ℚ)) / 2 := by
    ring
  have ha2 : (0 : ℚ) ≤ (a : ℚ) := by exact_mod_cast ha
  have hb2 : (0 : ℚ) ≤ (b : ℚ) := by exact_mod_cast hb
  unfold interpChannel
  rw [pyInt_eq_floor _ (by rw [harg]; positivity), harg]
  exact abs_floor_sub_le_one _

theorem interpChannel_mono (a b : ℤ) (t t2 : ℚ) (ha : 0 ≤ a) (hb : 0 ≤ b)
    (h0 : 0 ≤ t) (h2 : t2 ≤ 1) (htt : t ≤ t2) (hab : a ≤ b) :
    interpChannel a b t ≤ interpChannel a b t2 := by
  have h02 : 0 ≤ t2 := le_trans h0 htt
  have h1 : t ≤ 1 := le_trans htt h2
  have hba : (0 : ℚ) ≤ (b : ℚ) - (a : ℚ) := by
    rw [sub_nonneg]
    exact_mod_cast hab
  have harg : (a : ℚ) + ((b : ℚ) - (a : ℚ)) * t
      ≤ (a : ℚ) + ((b : ℚ) - (a : ℚ)) * t2 := by
    nlinarith [mul_le_mul_of_nonneg_left htt hba]
  unfold interpChannel
  rw [pyInt_eq_floor _ (interp_arg_nonneg a b t ha hb h0 h1),
    pyInt_eq_floor _ (interp_arg_nonneg a b t2 ha hb h02 h2)]
  exact Int.floor_le_floor harg

theorem interpChannel_anti (a b : ℤ) (t t2 : ℚ) (ha : 0 ≤ a) (hb : 0 ≤ b)
    (h0 : 0 ≤ t) (h2 : t2 ≤ 1) (htt : t ≤ t2) (hab : b ≤ a) :
    interpChannel a b t2 ≤ interpChannel a b t := by
  have h02 : 0 ≤ t2 := le_trans h0 htt
  have h1 : t ≤ 1 := le_trans htt h2
  have hba : (b : ℚ) - (a : ℚ) ≤ 0 := by
    rw [sub_nonpos]
    exact_mod_cast hab
  have harg : (a : ℚ) + ((b : ℚ) - (a : ℚ)) * t2
      ≤ (a : ℚ) + ((b : ℚ) - (a : ℚ)) * t := by
    nlinarith [mul_le_mul_of_nonpos_left htt hba]
  unfold interpChannel
  rw [pyInt_eq_floor _ (interp_arg_nonneg a b t ha hb h0 h1),
    pyInt_eq_floor _ (interp_arg_nonneg a b t2 ha hb h02 h2)]
  exact Int.floor_le_floor harg

/-- Counterexample to C1 as stated, in both failing parts. First, for the
rect (0,0,2,1) from color1 = (0,0,0) to color2 = (2,2,2) with direction
horizontal, the bottom-right pixel (1,0) of the rect receives
int(0 + 2 * (1/2)) = 1 per channel, not color2: the loop parameter only
reaches (w-1)/w, never 1. Second, for the odd-dimension rect (0,0,3,3)
from (0,0,0) to (255,255,255) with direction diagonal, the midpoint pixel
(1,1) receives int(255 * (1/3)) = 85 per channel, which differs from the
average 127.5 of the two colors by 42.5, far beyond the rounding tolerance
of 1 per channel. -/
theorem gradient_corner_cex :
    (applyWrites (fun _ => ⟨0, 0, 0⟩)
        (gradient_fill (0, 0, 2, 1) ⟨0, 0, 0⟩ ⟨2, 2, 2⟩ .horizontal) (1, 0)
      ≠ (⟨2, 2, 2⟩ : Color))
    ∧ ¬(abs (((applyWrites (fun _ => ⟨0, 0, 0⟩)
          (gradient_fill (0, 0, 3, 3) ⟨0, 0, 0⟩ ⟨255, 255, 255⟩ .diagonal)
          (1, 1)).r : ℚ)
        - (((0 : ℚ) + 255) / 2)) ≤ 1) := by
  constructor
  · rw [gradient_fill_eq_grid]
    norm_num [applyWrites, gridWrites, rowWrites, interpColor, interpChannel,
      tParam, pyInt, Function.update]
  · rw [gradient_fill_eq_grid]
    norm_num [applyWrites, gridWrites, rowWrites, interpColor, interpChannel,
      tParam, pyInt, Function.update, Prod.ext_iff, lt_abs]

/-- Amended C1: fill_gradient writes exactly color1 at the top-left pixel
for every direction; at the bottom-right pixel it writes the interpolation
at parameter (w-1)/w for horizontal and (h-1)/h for vertical, which
approaches but in general does not equal color2; and for the diagonal
direction with even width 2a and even height 2b, the midpoint pixel
(x1 + a, y1 + b) receives the average of color1 and color2 within a
rounding tolerance of 1 per channel. -/
theorem gradient_corner_amended (x1 y1 : ℤ) (wN hN : ℕ) (c1 c2 : Color)
    (canvas : Canvas) (hw : 0 < wN) (hh : 0 < hN)
    (h1 : c1.Nonneg) (h2 : c2.Nonneg) :
    (∀ dir : Direction,
      applyWrites canvas
          (gradient_fill (x1, y1, x1 + (wN : ℤ), y1 + (hN : ℤ)) c1 c2 dir)
          (x1, y1)
        = c1)
    ∧ applyWrites canvas
          (gradient_fill (x1, y1, x1 + (wN : ℤ), y1 + (hN : ℤ)) c1 c2 .horizontal)
          (x1 + ((wN : ℤ) - 1), y1 + ((hN : ℤ) - 1))
        = interpColor c1 c2 (((wN : ℚ) - 1) / (wN : ℚ))
    ∧ applyWrites canvas
          (gradient_fill (x1, y1, x1 + (wN : ℤ), y1 + (hN : ℤ)) c1 c2 .vertical)
          (x1 + ((wN : ℤ) - 1), y1 + ((hN : ℤ) - 1))
        = interpColor c1 c2 (((hN : ℚ) - 1) / (hN : ℚ))
    ∧ ∀ a b : ℕ, wN = 2 * a → hN = 2 * b →
        abs ((((applyWrites canvas
              (gradient_fill (x1, y1, x1 + (wN : ℤ), y1 + (hN : ℤ)) c1 c2 .diagonal)
              (x1 + (a : ℤ), y1 + (b : ℤ))).r : ℚ)
            - ((c1.r : ℚ) + (c2.r : ℚ)) / 2)) ≤ 1
        ∧ abs ((((applyWrites canvas
              (gradient_fill (x1, y1, x1 + (wN : ℤ), y1 + (hN : ℤ)) c1 c2 .diagonal)
              (x1 + (a : ℤ), y1 + (b : ℤ))).g : ℚ)
            - ((c1.g : ℚ) + (c2.g : ℚ)) / 2)) ≤ 1
        ∧ abs ((((applyWrites canvas
              (gradient_fill (x1, y1, x1 + (wN : ℤ), y1 + (hN : ℤ)) c1 c2 .diagonal)
              (x1 + (a : ℤ), y1 + (b : ℤ))).b : ℚ)
            - ((c1.b : ℚ) + (c2.b : ℚ)) / 2)) ≤ 1 := by
  have hzero : (x1, y1) = (x1 + ((0 : ℕ) : ℤ), y1 + ((0 : ℕ) : ℤ)) := by
    simp
  have hbr : ∀ z : ℤ, ∀ n : ℕ, 0 < n → z + ((n : ℤ) - 1) = z + ((n - 1 : ℕ) : ℤ) := by
    intro z n hn
    omega
  refine ⟨?_, ?_, ?_, ?_⟩
  · intro dir
    rw [hzero, gradient_value x1 y1 wN hN c1 c2 dir canvas 0 0 hh hw,
      tParam_zero_zero, interpColor_zero]
  · rw [hbr x1 wN hw, hbr y1 hN hh,
      gradient_value x1 y1 wN hN c1 c2 .horizontal canvas (hN - 1) (wN - 1)
        (by omega) (by omega)]
    congr 1
    show ((wN - 1 : ℕ) : ℚ) / (((wN : ℤ) : ℚ)) = ((wN : ℚ) - 1) / (wN : ℚ)
    push_cast [Nat.cast_sub (by omega : 1 ≤ wN)]
    ring
  · rw [hbr x1 wN hw, hbr y1 hN hh,
      gradient_value x1 y1 wN hN c1 c2 .vertical canvas (hN - 1) (wN - 1)
        (by omega) (by omega)]
    congr 1
    show ((hN - 1 : ℕ) : ℚ) / (((hN : ℤ) : ℚ)) = ((hN : ℚ) - 1) / (hN : ℚ)
    push_cast [Nat.cast_sub (by omega : 1 ≤ hN)]
    ring
  · intro a b ha hb
    subst ha hb
    have ha0 : 0 < a := by omega
    have hb0 : 0 < b := by omega
    rw [gradient_value x1 y1 (2 * a) (2 * b) c1 c2 .diagonal canvas b a
      (by omega) (by omega)]
    have ht : tParam .diagonal b a ((2 * a : ℕ) : ℤ) ((2 * b : ℕ) : ℤ) = 1 / 2 := by
      unfold tParam
      have ha2 : ((a : ℚ)) ≠ 0 := by positivity
      have hb2 : ((b : ℚ)) ≠ 0 := by positivity
      push_cast
      field_simp
      ring
    rw [ht]
    obtain ⟨hr1, hg1, hb1⟩ := h1
    obtain ⟨hr2, hg2, hb2⟩ := h2
    exact ⟨interpChannel_half _ _ hr1 hr2, interpChannel_half _ _ hg1 hg2,
      interpChannel_half _ _ hb1 hb2⟩

/-- Witness for gradient_corner_amended: on a 2-by-2 diagonal gradient the
top-left pixel is exactly color1. -/
theorem gradient_corner_amended_witness :
    (0 < 2 ∧ 0 < 2 ∧ Color.Nonneg ⟨0, 0, 0⟩ ∧ Color.Nonneg ⟨2, 2, 2⟩)
    ∧ applyWrites (fun _ => ⟨9, 9, 9⟩)
        (gradient_fill (0, 0, 0 + ((2 : ℕ) : ℤ), 0 + ((2 : ℕ) : ℤ))
          ⟨0, 0, 0⟩ ⟨2, 2, 2⟩ .diagonal)
        (0, 0)
      = (⟨0, 0, 0⟩ : Color) :=
  ⟨⟨by decide, by decide, by decide, by decide⟩,
    (gradient_corner_amended 0 0 2 2 ⟨0, 0, 0⟩ ⟨2, 2, 2⟩ (fun _ => ⟨9, 9, 9⟩)
      (by decide) (by decide) (by decide) (by decide)).1 .diagonal⟩

/-- Counterexample to C4 as stated: the inline interpolation of
gradient_fill applies no clamping; at t = 2 with channels 0 and 2 it
returns int(0 + 2 * 2) = 4, not the value 2 obtained at the nearest
endpoint t = 1 of the interval. -/
theorem interp_clamp_cex : interpChannel 0 2 2 ≠ interpChannel 0 2 1 := by
  norm_num [interpChannel, pyInt]

/-- Amended C4: channel interpolation never clamps and never errors: for
t at least 1 the value linearly extrapolates to at least the color2
channel; and gradient_fill itself only ever evaluates the interpolation at
parameters t with 0 <= t < 1, so no out-of-range t arises in rendering. -/
theorem interp_no_clamp_amended (c1 c2 : ℤ) (t : ℚ) (dir : Direction)
    (w h : ℤ) (i j : ℕ) (hc1 : 0 ≤ c1) (hcc : c1 ≤ c2) (ht : 1 ≤ t)
    (hi : i < h.toNat) (hj : j < w.toNat) :
    c2 ≤ interpChannel c1 c2 t
    ∧ 0 ≤ tParam dir i j w h ∧ tParam dir i j w h < 1 := by
  have hiz : (i : ℤ) < h := Int.lt_toNat.mp hi
  have hjz : (j : ℤ) < w := Int.lt_toNat.mp hj
  have hw : (0 : ℤ) < w := lt_of_le_of_lt (Int.natCast_nonneg j) hjz
  have hh : (0 : ℤ) < h := lt_of_le_of_lt (Int.natCast_nonneg i) hiz
  refine ⟨?_, tParam_nonneg dir i j w h hw hh, tParam_lt_one dir i j w h hiz hjz⟩
  have hccq : (c1 : ℚ) ≤ (c2 : ℚ) := by exact_mod_cast hcc
  have harg : (c2 : ℚ) ≤ (c1 : ℚ) + ((c2 : ℚ) - (c1 : ℚ)) * t := by
    nlinarith [sub_nonneg.mpr hccq]
  have h0 : (0 : ℚ) ≤ (c1 : ℚ) + ((c2 : ℚ) - (c1 : ℚ)) * t := by
    have : (0 : ℚ) ≤ (c2 : ℚ) := by exact_mod_cast le_trans hc1 hcc
    linarith
  unfold interpChannel
  rw [pyInt_eq_floor _ h0]
  exact Int.le_floor.mpr harg

/-- Witness for interp_no_clamp_amended at channels 0, 2 and t = 2 on a
2-by-1 horizontal rect. -/
theorem interp_no_clamp_amended_witness :
    ((0 : ℤ) ≤ 0 ∧ (0 : ℤ) ≤ 2 ∧ (1 : ℚ) ≤ 2
      ∧ 0 < (1 : ℤ).toNat ∧ 1 < (2 : ℤ).toNat)
    ∧ (2 : ℤ) ≤ interpChannel 0 2 2
    ∧ 0 ≤ tParam .horizontal 0 1 2 1 ∧ tParam .horizontal 0 1 2 1 < 1 :=
  ⟨⟨by decide, by decide, by norm_num, by decide, by decide⟩,
    interp_no_clamp_amended 0 2 2 .horizontal 2 1 0 1
      (by decide) (by decide) (by norm_num) (by decide) (by decide)⟩

/-- C8: the channel values written by fill_gradient are monotone along the
gradient axis: for two pixels of the rect whose parameters t are ordered,
each channel is nondecreasing when that channel of color2 is at least that
of color1, and nonincreasing when it is smaller. -/
theorem gradient_axis_monotone (x1 y1 : ℤ) (wN hN : ℕ) (c1 c2 : Color)
    (dir : Direction) (canvas : Canvas) (i j i2 j2 : ℕ)
    (hi : i < hN) (hj : j < wN) (hi2 : i2 < hN) (hj2 : j2 < wN)
    (h1 : c1.Nonneg) (h2 : c2.Nonneg)
    (ht : tParam dir i j (wN : ℤ) (hN : ℤ) ≤ tParam dir i2 j2 (wN : ℤ) (hN : ℤ)) :
    ((c1.r ≤ c2.r →
        (applyWrites canvas
          (gradient_fill (x1, y1, x1 + (wN : ℤ), y1 + (hN : ℤ)) c1 c2 dir)
          (x1 + (j : ℤ), y1 + (i : ℤ))).r
        ≤ (applyWrites canvas
          (gradient_fill (x1, y1, x1 + (wN : ℤ), y1 + (hN : ℤ)) c1 c2 dir)
          (x1 + (j2 : ℤ), y1 + (i2 : ℤ))).r)
      ∧ (c2.r < c1.r →
        (applyWrites canvas
          (gradient_fill (x1, y1, x1 + (wN : ℤ), y1 + (hN : ℤ)) c1 c2 dir)
          (x1 + (j2 : ℤ), y1 + (i2 : ℤ))).r
        ≤ (applyWrites canvas
          (gradient_fill (x1, y1, x1 + (wN : ℤ), y1 + (hN : ℤ)) c1 c2 dir)
          (x1 + (j : ℤ), y1 + (i : ℤ))).r))
    ∧ ((c1.g ≤ c2.g →
        (applyWrites canvas
          (gradient_fill (x1, y1, x1 + (wN : ℤ), y1 + (hN : ℤ)) c1 c2 dir)
          (x1 + (j : ℤ), y1 + (i : ℤ))).g
        ≤ (applyWrites canvas
          (gradient_fill (x1, y1, x1 + (wN : ℤ), y1 + (hN : ℤ)) c1 c2 dir)
          (x1 + (j2 : ℤ), y1 + (i2 : ℤ))).g)
      ∧ (c2.g < c1.g →
        (applyWrites canvas
          (gradient_fill (x1, y1, x1 + (wN : ℤ), y1 + (hN : ℤ)) c1 c2 dir)
          (x1 + (j2 : ℤ), y1 + (i2 : ℤ))).g
        ≤ (applyWrites canvas
          (gradient_fill (x1, y1, x1 + (wN : ℤ), y1 + (hN : ℤ)) c1 c2 dir)
          (x1 + (j : ℤ), y1 + (i : ℤ))).g))
    ∧ ((c1.b ≤ c2.b →
        (applyWrites canvas
          (gradient_fill (x1, y1, x1 + (wN : ℤ), y1 + (hN : ℤ)) c1 c2 dir)
          (x1 + (j : ℤ), y1 + (i : ℤ))).b
        ≤ (applyWrites canvas
          (gradient_fill (x1, y1, x1 + (wN : ℤ), y1 + (hN : ℤ)) c1 c2 dir)
          (x1 + (j2 : ℤ), y1 + (i2 : ℤ))).b)
      ∧ (c2.b < c1.b →
        (applyWrites canvas
          (gradient_fill (x1, y1, x1 + (wN : ℤ), y1 + (hN : ℤ)) c1 c2 dir)
          (x1 + (j2 : ℤ), y1 + (i2 : ℤ))).b
        ≤ (applyWrites canvas
          (gradient_fill (x1, y1, x1 + (wN : ℤ), y1 + (hN : ℤ)) c1 c2 dir)
          (x1 + (j : ℤ), y1 + (i : ℤ))).b)) := by
  obtain ⟨hr1, hg1, hb1⟩ := h1
  obtain ⟨hr2, hg2, hb2⟩ := h2
  have hwz : (0 : ℤ) < (wN : ℤ) := by exact_mod_cast Nat.pos_of_ne_zero (by omega)
  have hhz : (0 : ℤ) < (hN : ℤ) := by exact_mod_cast Nat.pos_of_ne_zero (by omega)
  have h0 : 0 ≤ tParam dir i j (wN : ℤ) (hN : ℤ) :=
    tParam_nonneg dir i j _ _ hwz hhz
  have hlt : tParam dir i2 j2 (wN : ℤ) (hN : ℤ) < 1 :=
    tParam_lt_one dir i2 j2 _ _ (by exact_mod_cast hi2) (by exact_mod_cast hj2)
  rw [gradient_value x1 y1 wN hN c1 c2 dir canvas i j hi hj,
    gradient_value x1 y1 wN hN c1 c2 dir canvas i2 j2 hi2 hj2]
  exact ⟨⟨fun hab => interpChannel_mono _ _ _ _ hr1 hr2 h0 (le_of_lt hlt) ht hab,
      fun hab => interpChannel_anti _ _ _ _ hr1 hr2 h0 (le_of_lt hlt) ht
        (le_of_lt hab)⟩,
    ⟨fun hab => interpChannel_mono _ _ _ _ hg1 hg2 h0 (le_of_lt hlt) ht hab,
      fun hab => interpChannel_anti _ _ _ _ hg1 hg2 h0 (le_of_lt hlt) ht
        (le_of_lt hab)⟩,
    ⟨fun hab => interpChannel_mono _ _ _ _ hb1 hb2 h0 (le_of_lt hlt) ht hab,
      fun hab => interpChannel_anti _ _ _ _ hb1 hb2 h0 (le_of_lt hlt) ht
        (le_of_lt hab)⟩⟩

/-- Witness for gradient_axis_monotone: on a 2-by-1 horizontal gradient
from (0,0,0) to (2,2,2), the red channel of pixel 0 is at most that of
pixel 1. -/
theorem gradient_axis_monotone_witness :
    (0 < 1 ∧ 0 < 2 ∧ 1 < 2 ∧ Color.Nonneg ⟨0, 0, 0⟩ ∧ Color.Nonneg ⟨2, 2, 2⟩
      ∧ tParam .horizontal 0 0 2 1 ≤ tParam .horizontal 0 1 2 1)
    ∧ (applyWrites (fun _ => ⟨9, 9, 9⟩)
        (gradient_fill (0, 0, 0 + ((2 : ℕ) : ℤ), 0 + ((1 : ℕ) : ℤ))
          ⟨0, 0, 0⟩ ⟨2, 2, 2⟩ .horizontal)
        (0 + ((0 : ℕ) : ℤ), 0 + ((0 : ℕ) : ℤ))).r
      ≤ (applyWrites (fun _ => ⟨9, 9, 9⟩)
        (gradient_fill (0, 0, 0 + ((2 : ℕ) : ℤ), 0 + ((1 : ℕ) : ℤ))
          ⟨0, 0, 0⟩ ⟨2, 2, 2⟩ .horizontal)
        (0 + ((1 : ℕ) : ℤ), 0 + ((0 : ℕ) : ℤ))).r :=
  ⟨⟨by decide, by decide, by decide, by decide, by decide,
      by norm_num [tParam]⟩,
    (gradient_axis_monotone 0 0 2 1 ⟨0, 0, 0⟩ ⟨2, 2, 2⟩ .horizontal
      (fun _ => ⟨9, 9, 9⟩) 0 0 0 1 (by decide) (by decide) (by decide) (by decide)
      (by decide) (by decide) (by norm_num [tParam])).1.1 (by decide)⟩

theorem runAddPages_succ_spec (n : ℕ) :
    runAddPages (n + 1)
      = ⟨n + 1,
          (List.range n).map (fun k => ⟨k + 1, headerDraws (k + 1), true⟩),
          some ⟨n + 1, headerDraws (n + 1), false⟩⟩ := by
  induction n with
  | zero => rfl
  | succ m ih =>
    show addPage (runAddPages (m + 1)) = _
    rw [ih]
    simp [addPage, footerDraws, List.range_succ]

theorem docPages_spec (n : ℕ) :
    docPages (n + 1)
      = (List.range (n + 1)).map (fun k => ⟨k + 1, headerDraws (k + 1), true⟩) := by
  unfold docPages
  rw [runAddPages_succ_spec]
  simp [outputDoc, footerDraws, List.range_succ]

/-- Counterexample to C2 as stated: in the two-page document the cover
page does carry the footer band. BrandedPDF.footer has no page-1 guard, so
the page-number line is drawn on the cover page as well. -/
theorem cover_footer_cex :
    ¬(∀ p ∈ docPages 2, p.pageNo = 1 →
        p.headerBand = false ∧ p.footerBand = false) := by
  decide

/-- Amended C2: in every generated document the first page (the cover)
carries no header band but does carry the footer band, while every
subsequent page carries both: the header is drawn once on page entry
except on the cover, and the footer once on every page exit including the
cover. -/
theorem page_bands_amended (n : ℕ) (p : PageRecord) (hp : p ∈ docPages n) :
    (p.pageNo = 1 → p.headerBand = false ∧ p.footerBand = true)
    ∧ (p.pageNo ≠ 1 → p.headerBand = true ∧ p.footerBand = true) := by
  cases n with
  | zero => simp [docPages, runAddPages, initDoc, outputDoc] at hp
  | succ m =>
    rw [docPages_spec] at hp
    obtain ⟨k, hk, rfl⟩ := List.mem_map.mp hp
    constructor
    · intro h1
      simp only at h1
      have hk0 : k = 0 := by omega
      subst hk0
      exact ⟨rfl, rfl⟩
    · intro h1
      simp only at h1
      refine ⟨?_, rfl⟩
      simp only [headerDraws]
      simp [Nat.succ_ne_zero]
      omega

/-- Witness for page_bands_amended: the cover page of the two-page
document has no header band and a footer band. -/
theorem page_bands_amended_witness :
    ((⟨1, false, true⟩ : PageRecord) ∈ docPages 2)
    ∧ (((1 : ℕ) = 1 →
        (⟨1, false, true⟩ : PageRecord).headerBand = false
          ∧ (⟨1, false, true⟩ : PageRecord).footerBand = true)
      ∧ ((1 : ℕ) ≠ 1 →
        (⟨1, false, true⟩ : PageRecord).headerBand = true
          ∧ (⟨1, false, true⟩ : PageRecord).footerBand = true)) :=
  ⟨by decide, page_bands_amended 2 ⟨1, false, true⟩ (by decide)⟩

/-- Counterexample to C3 as stated: for a one-line content at start cursor
0, the measured height is final_Y - start_Y + 4 = 18, and the trace of
info_box holds exactly one rect at that height, drawn with style D (border
only): the fill is never re-drawn at the measured height, it remains only
in the 30-unit estimate rect. -/
theorem info_box_fill_cex :
    (info_box 1 ⟨0, []⟩).rects
      = [⟨10, 2, 190, 30, .DF⟩, ⟨10, 2, 190, 18, .D⟩]
    ∧ ¬∃ r ∈ (info_box 1 ⟨0, []⟩).rects, r.h = 18 ∧ r.style ≠ RectStyle.D := by
  have htr : (info_box 1 ⟨0, []⟩).rects
      = [⟨10, 2, 190, 30, .DF⟩, ⟨10, 2, 190, 18, .D⟩] := by
    norm_num [info_box, pdfLn, pdfRect, pdfSetY, pdfCellNext, pdfMultiCell]
  refine ⟨htr, ?_⟩
  rw [htr]
  rintro ⟨r, hr, hh, hst⟩
  simp only [List.mem_cons, List.not_mem_nil, or_false] at hr
  rcases hr with rfl | rfl
  · norm_num at hh
  · exact hst rfl

/-- Amended C3: after the content has been rendered, info_box re-draws
only the box border (style D) at measured_height = final_Y - start_Y +
bottom_padding = 13 + 5 * nLines; the fill is not re-drawn and remains
from the initial 30-unit estimate rect, and the cursor ends at
start_Y + 13 + 5 * nLines + 2. -/
theorem info_box_redraw_amended (y0 : ℚ) (rs0 : List RectOp) (n : ℕ) :
    (info_box n ⟨y0, rs0⟩).rects
      = rs0 ++ [⟨10, y0 + 2, 190, 30, .DF⟩,
          ⟨10, y0 + 2, 190, 13 + 5 * (n : ℚ), .D⟩]
    ∧ (info_box n ⟨y0, rs0⟩).y = y0 + 15 + 5 * (n : ℚ) := by
  constructor
  · show rs0 ++ [⟨10, y0 + 2, 190, 30, .DF⟩] ++ [⟨10, y0 + 2, 190,
      y0 + 2 + 3 + 6 + 5 * (n : ℚ) - (y0 + 2) + 4, .D⟩] = _
    rw [List.append_assoc]
    have harith : y0 + 2 + 3 + 6 + 5 * (n : ℚ) - (y0 + 2) + 4
        = 13 + 5 * (n : ℚ) := by ring
    rw [harith]
    rfl
  · show y0 + 2 + 3 + 6 + 5 * (n : ℚ) + 4 = y0 + 15 + 5 * (n : ℚ)
    ring

/-- C6: for every sequence of runs on one logical line, the final cursor x
equals the start plus the sum of the individually measured run widths, and
the run colors never affect the x positions: two renders of the same texts
with the same measuring font but different colors place every run at the
identical x coordinate and end at the identical cursor. -/
theorem token_run_advance (measure : String → ℤ) (x0 : ℤ)
    (runs runs2 : List (String × Color))
    (h : runs.map Prod.fst = runs2.map Prod.fst) :
    (drawRuns measure x0 runs).2
      = x0 + (runs.map (fun r => measure r.1)).sum
    ∧ (drawRuns measure x0 runs).1.map (fun p => p.1)
      = (drawRuns measure x0 runs2).1.map (fun p => p.1)
    ∧ (drawRuns measure x0 runs).2 = (drawRuns measure x0 runs2).2 := by
  induction runs generalizing x0 runs2 with
  | nil =>
    cases runs2 with
    | nil => simp [drawRuns]
    | cons b bs => simp at h
  | cons a as ih =>
    cases runs2 with
    | nil => simp at h
    | cons b bs =>
      simp only [List.map_cons, List.cons.injEq] at h
      obtain ⟨h1, h2⟩ := h
      obtain ⟨ihA, ihB, ihC⟩ := ih (x0 + measure a.1) bs h2
      refine ⟨?_, ?_, ?_⟩
      · simp only [drawRuns, List.map_cons, List.sum_cons]
        rw [ihA]
        ring
      · simp only [drawRuns, List.map_cons, List.cons.injEq]
        rw [← h1]
        exact ⟨trivial, ihB⟩
      · simp only [drawRuns]
        rw [← h1]
        exact ihC

/-- Witness for token_run_advance: two color assignments of the runs GET
and /api produce the identical x positions. -/
theorem token_run_advance_witness :
    ([(("GET", (⟨0, 0, 0⟩ : Color))), (("/api", ⟨1, 1, 1⟩))].map Prod.fst
        = [(("GET", (⟨9, 9, 9⟩ : Color))), (("/api", ⟨5, 5, 5⟩))].map Prod.fst)
    ∧ (drawRuns (fun s => (s.length : ℤ)) 0
          [("GET", ⟨0, 0, 0⟩), ("/api", ⟨1, 1, 1⟩)]).1.map (fun p => p.1)
      = (drawRuns (fun s => (s.length : ℤ)) 0
          [("GET", ⟨9, 9, 9⟩), ("/api", ⟨5, 5, 5⟩)]).1.map (fun p => p.1) :=
  ⟨rfl,
    (token_run_advance (fun s => (s.length : ℤ)) 0
      [("GET", ⟨0, 0, 0⟩), ("/api", ⟨1, 1, 1⟩)]
      [("GET", ⟨9, 9, 9⟩), ("/api", ⟨5, 5, 5⟩)] rfl).2.1⟩

theorem probeFonts_all_fail (avail : String → Bool) (l : List String)
    (h : ∀ n ∈ l, avail n = false) : probeFonts avail l = (l, .builtin) := by
  induction l with
  | nil => rfl
  | cons a rest ih =>
    have ha : avail a = false := h a (List.mem_cons_self _ _)
    simp only [probeFonts, ha, Bool.false_eq_true, if_false]
    rw [ih (fun n hn => h n (List.mem_cons_of_mem _ hn))]

theorem probeFonts_first_success (avail : String → Bool) (pre : List String)
    (n : String) (post : List String) (hpre : ∀ m ∈ pre, avail m = false)
    (hn : avail n = true) :
    probeFonts avail (pre ++ n :: post) = (pre ++ [n], .truetype n) := by
  induction pre with
  | nil =>
    simp only [List.nil_append, probeFonts, hn, if_true]
  | cons a rest ih =>
    have ha : avail a = false := hpre a (List.mem_cons_self _ _)
    simp only [List.cons_append, probeFonts, ha, Bool.false_eq_true, if_false,
      List.append_eq]
    rw [ih (fun m hm => hpre m (List.mem_cons_of_mem _ hm))]

/-- Counterexample to C9 as stated: with no font file available, two
identical consecutive get_font requests each probe the full 4-candidate
list afresh and each re-resolve the built-in default: the second request
re-probes the whole candidate list rather than reusing a memoized
result. -/
theorem font_reprobe_cex :
    (fontRun (fun _ => false) [false, false]).map Prod.fst
      = [font_names false, font_names false]
    ∧ (fontRun (fun _ => false) [false, false]).map Prod.snd
      = [FontResult.builtin, FontResult.builtin]
    ∧ font_names false ≠ [] := by
  refine ⟨rfl, rfl, ?_⟩
  simp [font_names, font_names_regular]

/-- Amended C9: font lookup keeps no cache: every request, including a
repeated identical one, runs the probe loop afresh on the ordered
candidate list; a request probes exactly the failing front of the list and
returns the first success, and when every candidate fails it probes the
whole list and falls back to the built-in default font, on that request. -/
theorem font_probe_amended (avail : String → Bool) (reqs : List Bool) :
    fontRun avail reqs = reqs.map (fun q => probeFonts avail (font_names q))
    ∧ (∀ q : Bool, (∀ n ∈ font_names q, avail n = false) →
        get_font avail q = (font_names q, FontResult.builtin))
    ∧ (∀ q : Bool, ∀ pre n post, font_names q = pre ++ n :: post →
        (∀ m ∈ pre, avail m = false) → avail n = true →
        get_font avail q = (pre ++ [n], FontResult.truetype n)) := by
  refine ⟨rfl, ?_, ?_⟩
  · intro q hq
    exact probeFonts_all_fail avail (font_names q) hq
  · intro q pre n post hsplit hpre hn
    unfold get_font
    rw [hsplit]
    exact probeFonts_first_success avail pre n post hpre hn

/-- Witness for font_probe_amended: with no font file available, a bold
request probes all six candidates and yields the built-in default. -/
theorem font_probe_amended_witness :
    (∀ n ∈ font_names true, (fun _ => false) n = false)
    ∧ get_font (fun _ => false) true = (font_names true, FontResult.builtin) :=
  ⟨fun _ _ => rfl,
    (font_probe_amended (fun _ => false) []).2.1 true (fun _ _ => rfl)⟩
